import Mathlib

/-!
Verification development for the mfcauto.py entity state-merge engine
(src/mfcauto/model.py), shallowly embedded in Lean 4.

Python dicts are modelled by insertion-ordered association lists
(updates keep the position of an existing key, fresh keys are appended,
exactly as CPython dicts behave).  Python scalar payload/session values
are modelled by the inductive type Value; Python equality between such
values (where True == 1 and False == 0) is modelled by pyEq, and Python
truthiness by pyTruthy.  Fallible operations (assert failures, int()
conversion errors) are modelled with Except/Option.
-/

namespace Mfcauto

/-- A Python scalar value as it occurs in payloads and session rows:
an int, a str or a bool. -/
inductive Value where
  | int (n : Int)
  | str (s : String)
  | bool (b : Bool)
  deriving DecidableEq, Repr

/-- Numeric view of a value: Python bools are the ints 0 and 1 for the
purposes of equality comparisons; strings have no numeric view. -/
def Value.numVal : Value → Option Int
  | .int n => some n
  | .bool b => some (if b then 1 else 0)
  | .str _ => none

/-- Python == on scalar values: strings compare to strings, ints and
bools compare numerically (True == 1), all cross combinations with a
string are unequal. -/
def pyEq (a b : Value) : Bool :=
  match a, b with
  | .str x, .str y => x == y
  | a, b =>
    match a.numVal, b.numVal with
    | some m, some n => m == n
    | _, _ => false

/-- Python == lifted to optional values, where none models Python None:
None equals only None. -/
def pyEqO : Option Value → Option Value → Bool
  | none, none => true
  | some a, some b => pyEq a b
  | _, _ => false

/-- Python truthiness of a scalar value. -/
def pyTruthy : Value → Bool
  | .int n => n != 0
  | .str s => !s.isEmpty
  | .bool b => b

/-! ## Association lists modelling Python dicts -/

variable {α : Type} {β : Type}

/-- Lookup in an insertion-ordered association list (Python d[k] /
d.get(k)). -/
def alookup [DecidableEq α] : List (α × β) → α → Option β
  | [], _ => none
  | (k, v) :: rest, key => if key = k then some v else alookup rest key

/-- Python d[k] = v: replace the value at an existing key in place,
otherwise append the new binding at the end. -/
def aset [DecidableEq α] : List (α × β) → α → β → List (α × β)
  | [], key, v => [(key, v)]
  | (k, w) :: rest, key, v =>
    if key = k then (k, v) :: rest else (k, w) :: aset rest key v

/-- Python d.setdefault(k, v): return the stored value for an existing
key, otherwise insert the default and return it.  The first component is
the updated dict, the second the value the call returns. -/
def asetdefault [DecidableEq α] (l : List (α × β)) (key : α) (v : β) :
    List (α × β) × β :=
  match alookup l key with
  | some w => (l, w)
  | none => (l ++ [(key, v)], v)

@[simp] theorem alookup_nil [DecidableEq α] (key : α) :
    alookup ([] : List (α × β)) key = none := rfl

@[simp] theorem alookup_cons [DecidableEq α] (k : α) (v : β) (rest : List (α × β)) (key : α) :
    alookup ((k, v) :: rest) key = if key = k then some v else alookup rest key := rfl

theorem alookup_append (l₁ l₂ : List (α × β)) [DecidableEq α] (key : α) :
    alookup (l₁ ++ l₂) key =
      match alookup l₁ key with
      | some v => some v
      | none => alookup l₂ key := by
  induction l₁ with
  | nil => simp
  | cons hd tl ih =>
    obtain ⟨k, v⟩ := hd
    by_cases h : key = k <;> simp [h, ih]

theorem alookup_asetdefault_fst [DecidableEq α] (l : List (α × β)) (key k : α) (v : β) :
    alookup (asetdefault l key v).1 k =
      match alookup l k with
      | some w => some w
      | none => if k = key then some v else none := by
  unfold asetdefault
  cases hl : alookup l key with
  | some w =>
    cases hk : alookup l k <;> simp_all
    by_cases h : k = key <;> simp_all
  | none =>
    rw [alookup_append]
    cases hk : alookup l k <;> simp_all

theorem asetdefault_of_some [DecidableEq α] (l : List (α × β)) (key : α) (v w : β)
    (h : alookup l key = some w) : asetdefault l key v = (l, w) := by
  unfold asetdefault
  rw [h]

theorem alookup_asetdefault_self [DecidableEq α] (l : List (α × β)) (key : α) (v : β) :
    alookup (asetdefault l key v).1 key = some ((asetdefault l key v).2) := by
  unfold asetdefault
  cases hl : alookup l key with
  | some w => simpa using hl
  | none => simp [alookup_append, hl]

theorem alookup_aset [DecidableEq α] (l : List (α × β)) (key k : α) (v : β) :
    alookup (aset l key v) k = if k = key then some v else alookup l k := by
  induction l with
  | nil => by_cases h : k = key <;> simp [aset, h]
  | cons hd tl ih =>
    obtain ⟨k0, w⟩ := hd
    by_cases h1 : key = k0
    · subst h1
      by_cases h2 : k = key <;> simp [aset, h2]
    · by_cases h2 : k = k0
      · subst h2
        have : ¬ k = key := fun hc => h1 hc.symm
        simp [aset, h1, this]
      · simp [aset, h1, h2, ih]

theorem aset_keys [DecidableEq α] (l : List (α × β)) (key : α) (v : β)
    (h : (alookup l key).isSome) : (aset l key v).map Prod.fst = l.map Prod.fst := by
  induction l with
  | nil => simp at h
  | cons hd tl ih =>
    obtain ⟨k0, w⟩ := hd
    by_cases h1 : key = k0
    · simp [aset, h1]
    · simp only [alookup_cons, if_neg h1] at h
      simp [aset, h1, ih h]

/-! ## Sessions and the best-session selector (model.py lines 35 to 66) -/

/-- A session row: a Python dict from property name to scalar value. -/
abbrev Session := List (String × Value)

/-- The known-sessions map of a model: session id to session row. -/
abbrev KS := List (Int × Session)

/-- Modelled from the spec: the video-state enum values are external
constants (spec section 6); src/mfcauto/constants.py is not part of the
sources given here.  OFFLINE is the sentinel offline video state; the
names STATE.Offline and FCVIDEO.OFFLINE in model.py denote this same
value.  Its concrete magnitude is not observable to any claim. -/
def OFFLINE : Int := 127

/-- Modelled from the spec: the expected producer level tag
FCLEVEL.MODEL, an external enum constant (spec section 6). -/
def FCLEVEL_MODEL : Int := 4

/-- Modelled from the spec: the four external bitmask flag definitions
(spec section 6).  Only their distinctness as bits is observable. -/
def FCOPT_TRUEPVT : Int := 1

/-- Modelled from the spec: external bitmask flag, see FCOPT_TRUEPVT. -/
def FCOPT_GUESTMUTE : Int := 2

/-- Modelled from the spec: external bitmask flag, see FCOPT_TRUEPVT. -/
def FCOPT_BASICMUTE : Int := 4

/-- Modelled from the spec: external bitmask flag, see FCOPT_TRUEPVT. -/
def FCOPT_MODELSW : Int := 8

/-- Model._default_session: the freshly defaulted offline session row. -/
def defaultSession (uid : Int) : Session :=
  [("sid", .int 0), ("uid", .int uid), ("vs", .int OFFLINE), ("rc", .int 0)]

/-- The mutation one iteration of the bestsessionid loop performs on the
row it visits: sessionobj.setdefault("vs", STATE.Offline) always runs,
and sessionobj.setdefault("model_sw", False) runs when the row is not
offline. -/
def bsidRow (sess : Session) : Session :=
  let p1 := asetdefault sess "vs" (.int OFFLINE)
  if pyEq p1.2 (.int OFFLINE) then p1.1
  else (asetdefault p1.1 "model_sw" (.bool false)).1

/-- One classification of a row as the loop reads it: offline if the
stored (or defaulted) video state equals STATE.Offline. -/
def rowOffline (sess : Session) : Bool :=
  pyEq ((alookup sess "vs").getD (.int OFFLINE)) (.int OFFLINE)

/-- One classification of a row as the loop reads it: flagged official
software if the stored (or defaulted) model_sw value is truthy. -/
def rowOfficial (sess : Session) : Bool :=
  pyTruthy ((alookup sess "model_sw").getD (.bool false))

/-- The loop body of Model.bestsessionid, threading the row mutations
performed by the setdefault calls and the accumulator pair
(sessionidtouse, foundmodelsoftware). -/
def bsidGo : KS → Int → Bool → KS × Int × Bool
  | [], best, found => ([], best, found)
  | (sid, sess) :: rest, best, found =>
    let p1 := asetdefault sess "vs" (.int OFFLINE)
    if pyEq p1.2 (.int OFFLINE) then
      let r := bsidGo rest best found
      ((sid, p1.1) :: r.1, r.2)
    else
      let p2 := asetdefault p1.1 "model_sw" (.bool false)
      let usethis : Bool :=
        if pyTruthy p2.2 then (if found then decide (sid > best) else true)
        else (!found && decide (sid > best))
      let best' := if usethis then sid else best
      let found' := found || pyTruthy p2.2
      let r := bsidGo rest best' found'
      ((sid, p2.1) :: r.1, r.2)

/-- Model.bestsessionid: returns the updated sessions map (the
setdefault calls insert missing vs and model_sw keys into rows) together
with the chosen session id. -/
def bestsessionidRun (ks : KS) : KS × Int :=
  let r := bsidGo ks 0 false
  (r.1, r.2.1)

/-- Model.bestsession: recompute bestsessionid, then
knownsessions.setdefault(bestsessionid, Model._default_session(uid)),
which inserts the defaulted offline row when the id is absent.  Returns
the updated map, the chosen id and the row the property returns. -/
def bestsessionRun (uid : Int) (ks : KS) : KS × Int × Session :=
  let r := bestsessionidRun ks
  let p := asetdefault r.1 r.2 (defaultSession uid)
  (p.1, r.2, p.2)

/-- The per-model state of model.py lines 12 to 18: uid, display name
nm (None initially), the tag set and the known sessions.  The whenmap
is modelled separately (see the watcher engine below) because its
entries hold function values. -/
structure ModelState where
  uid : Int
  nm : Option Value := none
  tags : Finset String := ∅
  knownsessions : KS := []
  deriving DecidableEq

/-! ## Payloads, events and the merge engine (model.py lines 74 to 141) -/

/-- One top-level payload entry: either a flat scalar property or a
nested group of sub-properties (the dicts arriving under the keys u, m
and s). -/
inductive PEntry where
  | scalar (v : Value)
  | group (g : List (String × Value))
  deriving DecidableEq, Repr

/-- A decoded payload: a Python dict from top-level key to entry. -/
abbrev Payload := List (String × PEntry)

/-- Well-formed payloads as they arrive from the wire: the keys u, m and
s hold nested dicts, every other key holds a scalar, and a declared sid
is a scalar int.  Payloads outside this shape make the Python source
raise mid-loop (iterating a non-dict, hashing a dict) and are excluded
from the claims about merge. -/
def payloadWF (p : Payload) : Bool :=
  p.all (fun kv =>
    if kv.1 == "u" || kv.1 == "m" || kv.1 == "s" then
      (match kv.2 with | .group _ => true | .scalar _ => false)
    else
      (match kv.2 with | .scalar _ => true | .group _ => false)) &&
  (match alookup p "sid" with
   | none => true
   | some (.scalar (.int _)) => true
   | some _ => false)

/-- Where an emission is delivered: the entity's own observers or the
Aggregate Entity (Model.All, uid -500) mirror. -/
inductive Target where
  | entity
  | aggregate
  deriving DecidableEq, Repr

/-- An emitted notification: a per-property change event, the catch-all
ANY event carrying the raw payload, or the tags change event carrying
the previous and current tag sets. -/
inductive Event where
  | prop (name : String) (before after : Option Value)
  | any (p : Payload)
  | tagsEv (prev cur : Finset String)
  deriving DecidableEq

/-- One entry of the merge callbackstack: (property, before, after).
The model argument Python also records is always self and is dropped. -/
structure CbTuple where
  prop : String
  before : Option Value
  after : Option Value
  deriving DecidableEq, Repr

/-- The session row stored under an id, defaulting to the empty row.
In merge the id looked up was always materialized first by a setdefault,
so the default is never consulted there. -/
def sessGet (ks : KS) (i : Int) : Session := (alookup ks i).getD []

/-- Python currentsession[key] = value for the session stored at id i. -/
def writeKS (ks : KS) (i : Int) (k : String) (v : Value) : KS :=
  aset ks i (aset (sessGet ks i) k v)

/-- The sid value stored in a row.  Every row the engine creates comes
from Model._default_session and therefore contains a sid key; on such
rows the default is never consulted (Python would raise KeyError). -/
def sidVal (sess : Session) : Value := (alookup sess "sid").getD (.int 0)

/-- The int Python bitwise-ands a flags value with: bools coerce to 0
or 1.  A string flags value would raise TypeError in Python and is not
produced by well-formed payloads. -/
def flagsInt : Value → Int
  | .int n => n
  | .bool b => if b then 1 else 0
  | .str _ => 0

/-- The four derived boolean session fields written when a flattened m
group carries a flags bitmask (model.py lines 106 to 110). -/
def writeFlags (ks : KS) (i : Int) (v : Value) : KS :=
  let f := flagsInt v
  let ks1 := writeKS ks i "truepvt" (.bool (decide (Int.land f FCOPT_TRUEPVT ≠ 0)))
  let ks2 := writeKS ks1 i "guests_muted" (.bool (decide (Int.land f FCOPT_GUESTMUTE ≠ 0)))
  let ks3 := writeKS ks2 i "basics_muted" (.bool (decide (Int.land f FCOPT_BASICMUTE ≠ 0)))
  writeKS ks3 i "model_sw" (.bool (decide (Int.land f FCOPT_MODELSW ≠ 0)))

/-- The inner loop flattening one nested group into the target session
(model.py lines 99 to 110).  Reads of previoussession go through the
evolving map at the baseline best id: previoussession is a live
reference, so when it is the same row as the target session the reads
see the writes already performed by this merge. -/
def mergeGroup (prevKey csid : Int) (isM : Bool) : KS → List (String × Value) → KS × List CbTuple
  | ks, [] => (ks, [])
  | ks, (k2, v) :: rest =>
    let before := alookup (sessGet ks prevKey) k2
    let ks1 := writeKS ks csid k2 v
    let ks2 := if isM && (k2 == "flags") then writeFlags ks1 csid v else ks1
    let r := mergeGroup prevKey csid isM ks2 rest
    (r.1, { prop := k2, before := before, after := some v } :: r.2)

/-- The top-level loop over the payload (model.py lines 97 to 116).
The two ill-formed combinations (a scalar under u, m or s; a nested
dict under another key) make the Python source raise or store a dict
as a property value; they are excluded by payloadWF and skipped here. -/
def mergeItems (prevKey csid : Int) : KS → Payload → KS × List CbTuple
  | ks, [] => (ks, [])
  | ks, (key, e) :: rest =>
    if key == "u" || key == "m" || key == "s" then
      match e with
      | .group g =>
        let r1 := mergeGroup prevKey csid (key == "m") ks g
        let r2 := mergeItems prevKey csid r1.1 rest
        (r2.1, r1.2 ++ r2.2)
      | .scalar _ => mergeItems prevKey csid ks rest
    else
      match e with
      | .scalar v =>
        let before := alookup (sessGet ks prevKey) key
        let ks1 := writeKS ks csid key v
        let r := mergeItems prevKey csid ks1 rest
        (r.1, { prop := key, before := before, after := some v } :: r.2)
      | .group _ => mergeItems prevKey csid ks rest

/-- The implicit clearing on session-id change (model.py lines 118 to
122): every key present in the baseline row but absent from the updated
target row is recorded as changing to None.  Python iterates a set
difference in unspecified order; this model fixes the baseline row's
insertion order. -/
def clearedTuples (prev cur : Session) : List CbTuple :=
  ((prev.map Prod.fst).filter (fun k => (alookup cur k).isNone)).map
    (fun k => { prop := k, before := alookup prev k, after := none })

/-- The target session id: payload sid if declared, else 0 (model.py
line 91).  payloadWF guarantees a declared sid is a scalar int. -/
def payloadSid (p : Payload) : Int :=
  match alookup p "sid" with
  | some (.scalar (.int n)) => n
  | some _ => 0
  | none => 0

/-- The sessions map, baseline best id, target id and recorded tuples
after the update loop and the clearing step, before the visibility
decision (model.py lines 90 to 122). -/
structure MergePrep where
  ks : KS
  prevKey : Int
  csid : Int
  tuples : List CbTuple
  deriving DecidableEq

/-- Model.merge up to and including the clearing step: capture the
baseline best session (a bestsession access, which may insert its
default row), materialize the target session, flatten the payload and
record the cleared keys on session-id change. -/
def mergeSessions (s : ModelState) (p : Payload) : MergePrep :=
  let b := bestsessionRun s.uid s.knownsessions
  let prevKey := b.2.1
  let csid := payloadSid p
  let ks2 := (asetdefault b.1 csid (defaultSession s.uid)).1
  let r := mergeItems prevKey csid ks2 p
  let curS := sessGet r.1 csid
  let prevS := sessGet r.1 prevKey
  let tuples :=
    if pyEqO (alookup curS "sid") (alookup prevS "sid") then r.2
    else r.2 ++ clearedTuples prevS curS
  { ks := r.1, prevKey := prevKey, csid := csid, tuples := tuples }

/-- Model._purgeoldsessions: drop every session whose video state is
missing or offline.  Python deletes while iterating a copied key set,
which is the same as this filter.  FCVIDEO(vs) == FCVIDEO.OFFLINE holds
exactly when vs equals the OFFLINE constant for enum-valued states; a
non-enum int would raise ValueError in Python and never arises from
wire payloads. -/
def purgeold (ks : KS) : KS :=
  ks.filter (fun e =>
    match alookup e.2 "vs" with
    | none => false
    | some v => !(pyEq v (.int OFFLINE)))

/-- The mirrored per-property notifications of a visible merge: one pair
of emissions (entity observers, then the Aggregate Entity mirror) per
recorded tuple whose before and after differ under Python equality. -/
def propEvents (ts : List CbTuple) : List (Target × Event) :=
  (ts.filter (fun t => !(pyEqO t.before t.after))).flatMap
    (fun t => [(Target.entity, Event.prop t.prop t.before t.after),
               (Target.aggregate, Event.prop t.prop t.before t.after)])

/-- Everything a visible merge emits: the diffed per-property events
followed by the catch-all ANY event, each mirrored to the Aggregate
Entity (model.py lines 128 to 133). -/
def diffEvents (ts : List CbTuple) (p : Payload) : List (Target × Event) :=
  propEvents ts ++ [(Target.entity, Event.any p), (Target.aggregate, Event.any p)]

/-- The display-name refresh of a visible merge (model.py lines 126 to
127): each mention of self.bestsession is a fresh property access that
reruns the selector, threading its setdefault mutations, with Python's
short-circuit evaluation order. -/
def nmUpdate (uid : Int) (nm0 : Option Value) (ks : KS) : KS × Option Value :=
  let a := bestsessionRun uid ks
  match alookup a.2.2 "nm" with
  | none => (a.1, nm0)
  | some _ =>
    let b := bestsessionRun uid a.1
    if pyEqO (alookup b.2.2 "nm") nm0 then (b.1, nm0)
    else
      let c := bestsessionRun uid b.1
      (c.1, alookup c.2.2 "nm")

/-- The result of a merge or tag merge: the updated model state, the
emitted notifications in order, and whether the watcher engine
(_process_whens) was run. -/
structure MergeOut where
  state : ModelState
  events : List (Target × Event)
  ranWhens : Bool
  deriving DecidableEq

/-- The visible branch of Model.merge: refresh nm, emit the diffed and
catch-all events, run the watcher engine, then purge. -/
def mergeVisible (s : ModelState) (p : Payload) (ks : KS) (ts : List CbTuple) : MergeOut :=
  let u := nmUpdate s.uid s.nm ks
  { state := { s with nm := u.2, knownsessions := purgeold u.1 },
    events := diffEvents ts p,
    ranWhens := true }

/-- The body of Model.merge after its asserts (model.py lines 89 to
135).  Each mention of self.bestsessionid on lines 124 and 125 is a
fresh property access rerunning the selector, threading its mutations,
under Python's short-circuit evaluation. -/
def mergeBody (s : ModelState) (p : Payload) : MergeOut :=
  let prep := mergeSessions s p
  let r1 := bestsessionidRun prep.ks
  let sid1 := sidVal (sessGet r1.1 prep.csid)
  if pyEq (.int r1.2) sid1 then
    mergeVisible s p r1.1 prep.tuples
  else
    let r2 := bestsessionidRun r1.1
    let sid2 := sidVal (sessGet r2.1 prep.csid)
    if r2.2 == 0 && !(pyEq sid2 (.int 0)) then
      mergeVisible s p r2.1 prep.tuples
    else
      { state := { s with knownsessions := purgeold r2.1 },
        events := [],
        ranWhens := false }

/-- The producer-level precondition of merge (model.py line 87):
payload declares no lv, or the declared lv equals FCLEVEL.MODEL.  A
nested dict under lv is never equal to the int enum constant. -/
def lvOK (p : Payload) : Bool :=
  match alookup p "lv" with
  | none => true
  | some (.scalar v) => pyEq v (.int FCLEVEL_MODEL)
  | some (.group _) => false

/-- Model.merge: the two asserts (model.py lines 85 to 87) reject the
Aggregate Entity and a mismatched producer level before any state is
touched; otherwise the body runs to completion. -/
def merge (s : ModelState) (p : Payload) : Except Unit MergeOut :=
  if s.uid = -500 ∨ lvOK p = false then .error () else .ok (mergeBody s p)

/-- The model state a caller observes after calling merge: unchanged
when the call raised an assertion error, the merged state otherwise. -/
def mergeFinal (s : ModelState) (p : Payload) : ModelState :=
  match merge s p with
  | .error _ => s
  | .ok o => o.state

/-- Model.merge_tags (model.py lines 74 to 81): copy the previous tag
set, union in the new tags, emit one tags event to the entity and one
mirror to the Aggregate Entity carrying the previous and the updated
set, then run the watcher engine. -/
def mergeTags (s : ModelState) (newTags : List String) : MergeOut :=
  let previous := s.tags
  let current := s.tags ∪ newTags.toFinset
  { state := { s with tags := current },
    events := [(Target.entity, Event.tagsEv previous current),
               (Target.aggregate, Event.tagsEv previous current)],
    ranWhens := true }

/-! ## The entity registry (model.py lines 7 to 34) -/

/-- The process-wide KNOWNMODELS registry: a dict from integer uid to
Model instance.  Object identity of the Python Model instances is
modelled by allocation tokens: the token of an entry never changes, so
two lookups return the same instance exactly when they return the same
token.  next is the allocation counter. -/
structure Registry where
  known : List (Int × Nat) := []
  next : Nat := 0
  deriving DecidableEq, Repr

/-- The uid argument of Model.get_model: either an int or a decimal
string (model.py lines 23 to 24 convert a str with int()). -/
inductive UidArg where
  | i (n : Int)
  | s (t : String)
  deriving DecidableEq, Repr

/-- One decimal digit character. -/
def digitChar (d : Nat) : Char := Char.ofNat (48 + d)

/-- The decimal digit list of a natural number, most significant digit
first, as Python str() prints it. -/
def natDigits (n : Nat) : List Char :=
  if _h : n < 10 then [digitChar n]
  else natDigits (n / 10) ++ [digitChar (n % 10)]
decreasing_by exact Nat.div_lt_self (by omega) (by omega)

/-- Modelled from the spec: Python str() of an int (a stdlib builtin,
not part of this repository): an optional minus sign followed by the
decimal digits. -/
def pyStr : Int → String
  | .ofNat m => ⟨natDigits m⟩
  | .negSucc m => ⟨'-' :: natDigits (m + 1)⟩

/-- The numeric value of a decimal digit character, if it is one. -/
def digitVal (c : Char) : Option Nat :=
  if 48 ≤ c.toNat ∧ c.toNat ≤ 57 then some (c.toNat - 48) else none

/-- Left-to-right decimal accumulation over a character list, failing on
the first non-digit. -/
def parseNatAux : Nat → List Char → Option Nat
  | acc, [] => some acc
  | acc, c :: cs =>
    match digitVal c with
    | some d => parseNatAux (acc * 10 + d) cs
    | none => none

/-- Modelled from the spec: Python int() on a string (a stdlib builtin,
not part of this repository), returning none where Python raises
ValueError.  Python additionally tolerates surrounding whitespace, a
plus sign and digit-group underscores, none of which str() ever
produces, so on every string str() outputs this parser agrees with
int(). -/
def pyIntOfStr (s : String) : Option Int :=
  match s.data with
  | [] => none
  | c :: cs =>
    if c = '-' then
      match cs with
      | [] => none
      | _ => (parseNatAux 0 cs).map (fun m => -(m : Int))
    else (parseNatAux 0 (c :: cs)).map (fun m => (m : Int))

/-- Model.get_model (model.py lines 20 to 29): convert a string uid with
int() (error models the ValueError int() raises on a malformed string),
then under the registry lock either setdefault the uid (create=True,
returning the existing instance when present and allocating exactly one
new instance otherwise) or look it up without creating (create=False,
returning None when absent). -/
def get_model (r : Registry) (u : UidArg) (create : Bool) :
    Except Unit (Registry × Option Nat) :=
  let uidOpt := match u with
    | .i n => some n
    | .s t => pyIntOfStr t
  match uidOpt with
  | none => .error ()
  | some uid =>
    if create then
      match alookup r.known uid with
      | some t => .ok (r, some t)
      | none => .ok ({ known := r.known ++ [(uid, r.next)], next := r.next + 1 }, some r.next)
    else .ok (r, alookup r.known uid)

/-! ## The watcher engine (model.py lines 157 to 180) -/

/-- A callback invocation recorded by the watcher engine, tagged with
the uid of the model the predicate was evaluated on. -/
inductive WCall where
  | ontrue (uid : Int)
  | onfalseaftertrue (uid : Int)
  deriving DecidableEq, Repr

/-- The _processor closure of Model._process_whens (model.py lines 165
to 173) for one watcher record, given the uid of the evaluating model
and the current truth value of condition(self): on a rising edge add the
uid to the matchedset and invoke ontrue, on a falling edge remove it and
invoke onfalseaftertrue, otherwise do nothing. -/
def processWatcher (matched : Finset Int) (uid : Int) (b : Bool) :
    Finset Int × List WCall :=
  if b then
    if uid ∈ matched then (matched, [])
    else (insert uid matched, [WCall.ontrue uid])
  else
    if uid ∈ matched then (matched.erase uid, [WCall.onfalseaftertrue uid])
    else (matched, [])

/-- A sequence of watcher evaluations of one registered watcher record:
each element is the uid of the model a merge or tag merge (or the
registration itself) evaluated the predicate on, paired with the truth
value the predicate returned there.  Returns the final matchedset and
the callback invocations in order. -/
def runWatcher : Finset Int → List (Int × Bool) → Finset Int × List WCall
  | m, [] => (m, [])
  | m, (u, b) :: rest =>
    let p := processWatcher m u b
    let r := runWatcher p.1 rest
    (r.1, p.2 ++ r.2)

/-- The number of false-to-true transitions in a truth-value sequence,
given the value preceding the sequence. -/
def upEdges : Bool → List Bool → Nat
  | _, [] => 0
  | prev, b :: rest => (if b && !prev then 1 else 0) + upEdges b rest

/-- The number of true-to-false transitions in a truth-value sequence,
given the value preceding the sequence. -/
def downEdges : Bool → List Bool → Nat
  | _, [] => 0
  | prev, b :: rest => (if !b && prev then 1 else 0) + downEdges b rest

/-! ## Selector lemmas -/

/-- The ids of the sessions the selector consults: those whose stored
(or defaulted) video state is not offline. -/
def qualifyingIds (ks : KS) : List Int :=
  (ks.filter (fun e => !rowOffline e.2)).map Prod.fst

/-- The ids of the consulted sessions flagged official software. -/
def officialIds (ks : KS) : List Int :=
  (ks.filter (fun e => !rowOffline e.2 && rowOfficial e.2)).map Prod.fst

/-- Fold of max over a list starting from a base element. -/
def maxFrom (b : Int) (l : List Int) : Int := l.foldl max b

/-- Maximum of a list, 0 for the empty list. -/
def maxNE : List Int → Int
  | [] => 0
  | x :: xs => maxFrom x xs

theorem asetdefault_snd {α β : Type} [DecidableEq α] (l : List (α × β)) (k : α) (v : β) :
    (asetdefault l k v).2 = (alookup l k).getD v := by
  unfold asetdefault
  cases h : alookup l k <;> simp [h]

theorem alookup_asetdefault_other {α β : Type} [DecidableEq α] (l : List (α × β))
    (k : α) (v : β) (k2 : α) (h : k2 ≠ k) :
    alookup (asetdefault l k v).1 k2 = alookup l k2 := by
  rw [alookup_asetdefault_fst]
  cases hk : alookup l k2 <;> simp [h]

theorem ifGt_eq_max (a b : Int) : (if b > a then b else a) = max a b := by
  rw [max_def]
  split <;> omega

theorem bsidRow_offline (sess : Session) : rowOffline (bsidRow sess) = rowOffline sess := by
  simp only [bsidRow, rowOffline]
  rw [asetdefault_snd]
  split
  · rw [alookup_asetdefault_self, asetdefault_snd]
    simp
  · rw [alookup_asetdefault_other _ _ _ _ (by decide), alookup_asetdefault_self, asetdefault_snd]
    simp

theorem bsidRow_official (sess : Session) : rowOfficial (bsidRow sess) = rowOfficial sess := by
  simp only [bsidRow, rowOfficial]
  rw [asetdefault_snd]
  split
  · rw [alookup_asetdefault_other _ _ _ _ (by decide)]
  · rw [alookup_asetdefault_self, asetdefault_snd,
      alookup_asetdefault_other _ _ _ _ (by decide)]
    simp

theorem bsidRow_idem (sess : Session) : bsidRow (bsidRow sess) = bsidRow sess := by
  have hv0 : alookup ((asetdefault sess "vs" (Value.int OFFLINE)).1) "vs" =
      some ((alookup sess "vs").getD (Value.int OFFLINE)) := by
    rw [alookup_asetdefault_self, asetdefault_snd]
  by_cases hc : pyEq ((alookup sess "vs").getD (Value.int OFFLINE)) (Value.int OFFLINE) = true
  · have h1 : bsidRow sess = (asetdefault sess "vs" (Value.int OFFLINE)).1 := by
      simp only [bsidRow]
      rw [asetdefault_snd, if_pos hc]
    rw [h1]
    simp only [bsidRow]
    rw [asetdefault_of_some _ _ _ _ hv0]
    simp [hc]
  · have h2 : bsidRow sess =
        (asetdefault ((asetdefault sess "vs" (Value.int OFFLINE)).1) "model_sw"
          (Value.bool false)).1 := by
      simp only [bsidRow]
      rw [asetdefault_snd, if_neg hc]
    rw [h2]
    have hv2 : alookup ((asetdefault ((asetdefault sess "vs" (Value.int OFFLINE)).1) "model_sw"
        (Value.bool false)).1) "vs" = some ((alookup sess "vs").getD (Value.int OFFLINE)) := by
      rw [alookup_asetdefault_other _ _ _ _ (by decide), hv0]
    have hm2 : alookup ((asetdefault ((asetdefault sess "vs" (Value.int OFFLINE)).1) "model_sw"
        (Value.bool false)).1) "model_sw" =
        some ((alookup ((asetdefault sess "vs" (Value.int OFFLINE)).1) "model_sw").getD
          (Value.bool false)) := by
      rw [alookup_asetdefault_self, asetdefault_snd]
    simp only [bsidRow]
    rw [asetdefault_of_some _ _ _ _ hv2]
    simp only [Option.getD_some]
    rw [if_neg hc]
    rw [asetdefault_of_some _ _ _ _ hm2]

/-- One row transform per visited session. -/
def bsidRowP (e : Int × Session) : Int × Session := (e.1, bsidRow e.2)

theorem bsidGo_fst (ks : KS) (best : Int) (found : Bool) :
    (bsidGo ks best found).1 = ks.map bsidRowP := by
  induction ks generalizing best found with
  | nil => simp [bsidGo]
  | cons hd tl ih =>
    obtain ⟨sid, sess⟩ := hd
    simp only [bsidGo, bsidRowP, List.map_cons]
    split
    · rename_i hoff
      simp only [List.cons.injEq, Prod.mk.injEq, true_and]
      constructor
      · unfold bsidRow
        rw [if_pos hoff]
      · exact ih best found
    · rename_i hoff
      simp only [List.cons.injEq, Prod.mk.injEq, true_and]
      constructor
      · unfold bsidRow
        rw [if_neg hoff]
      · exact ih _ _

theorem bsidGo_cons (sid : Int) (sess : Session) (tl : KS) (best : Int) (found : Bool) :
    (bsidGo ((sid, sess) :: tl) best found).2 =
      if rowOffline sess then (bsidGo tl best found).2
      else if rowOfficial sess then
        (bsidGo tl (if found then (if sid > best then sid else best) else sid) true).2
      else
        (bsidGo tl (if !found && decide (sid > best) then sid else best) found).2 := by
  have hvs : (asetdefault sess "vs" (Value.int OFFLINE)).2 =
      (alookup sess "vs").getD (.int OFFLINE) := asetdefault_snd _ _ _
  have hmsw : (asetdefault ((asetdefault sess "vs" (Value.int OFFLINE)).1) "model_sw"
      (Value.bool false)).2 = (alookup sess "model_sw").getD (.bool false) := by
    rw [asetdefault_snd, alookup_asetdefault_other _ _ _ _ (by decide)]
  have hoffd : pyEq ((asetdefault sess "vs" (Value.int OFFLINE)).2) (.int OFFLINE) =
      rowOffline sess := by rw [hvs]; rfl
  have hmod : pyTruthy ((asetdefault ((asetdefault sess "vs" (Value.int OFFLINE)).1) "model_sw"
      (Value.bool false)).2) = rowOfficial sess := by rw [hmsw]; rfl
  simp only [bsidGo, hoffd, hmod]
  by_cases hoff : rowOffline sess
  · simp [hoff]
  · simp only [hoff, if_false, Bool.false_eq_true]
    by_cases hmo : rowOfficial sess
    · simp only [hmo, if_true, Bool.or_true]
      cases found <;> simp
    · simp only [hmo, if_false, Bool.or_false, Bool.false_eq_true]

theorem maxFrom_cons (b x : Int) (l : List Int) : maxFrom b (x :: l) = maxFrom (max b x) l := rfl

theorem maxFrom_eq_or_mem (l : List Int) : ∀ b : Int, maxFrom b l = b ∨ maxFrom b l ∈ l := by
  induction l with
  | nil => intro b; left; rfl
  | cons x xs ih =>
    intro b
    rw [maxFrom_cons]
    rcases ih (max b x) with h | h
    · rw [h]
      rcases max_choice b x with hm | hm
    <;> rw [hm]
      · left; rfl
      · right; exact List.mem_cons_self _ _
    · right; exact List.mem_cons_of_mem _ h

theorem le_maxFrom (l : List Int) : ∀ b : Int, b ≤ maxFrom b l := by
  induction l with
  | nil => intro b; exact le_refl b
  | cons x xs ih =>
    intro b
    rw [maxFrom_cons]
    exact le_trans (le_max_left b x) (ih _)

theorem mem_le_maxFrom (l : List Int) : ∀ (b x : Int), x ∈ l → x ≤ maxFrom b l := by
  induction l with
  | nil => intro b x h; cases h
  | cons y ys ih =>
    intro b x h
    rw [maxFrom_cons]
    rcases List.mem_cons.mp h with rfl | h
    · exact le_trans (le_max_right b x) (le_maxFrom _ _)
    · exact ih _ _ h

theorem bsidGo_val (ks : KS) (best : Int) (found : Bool) :
    (bsidGo ks best found).2.1 =
      if found then maxFrom best (officialIds ks)
      else if officialIds ks = [] then maxFrom best (qualifyingIds ks)
      else maxNE (officialIds ks) := by
  induction ks generalizing best found with
  | nil =>
    simp only [bsidGo, officialIds, qualifyingIds, List.filter_nil, List.map_nil, maxFrom,
      List.foldl_nil]
    split <;> simp
  | cons hd tl ih =>
    obtain ⟨sid, sess⟩ := hd
    rw [bsidGo_cons]
    by_cases hoff : rowOffline sess
    · rw [if_pos hoff]
      have ho : officialIds ((sid, sess) :: tl) = officialIds tl := by
        simp [officialIds, hoff]
      have hq : qualifyingIds ((sid, sess) :: tl) = qualifyingIds tl := by
        simp [qualifyingIds, hoff]
      rw [ho, hq, ih]
    · rw [if_neg hoff]
      have hq : qualifyingIds ((sid, sess) :: tl) = sid :: qualifyingIds tl := by
        simp [qualifyingIds, hoff]
      by_cases hmo : rowOfficial sess
      · rw [if_pos hmo]
        have ho : officialIds ((sid, sess) :: tl) = sid :: officialIds tl := by
          simp [officialIds, hoff, hmo]
        rw [ih, ho]
        cases found with
        | true =>
          simp only [if_true]
          rw [ifGt_eq_max, maxFrom_cons]
        | false =>
          simp only [Bool.false_eq_true, if_false]
          rw [if_neg (List.cons_ne_nil _ _)]
          rfl
      · rw [if_neg hmo]
        have ho : officialIds ((sid, sess) :: tl) = officialIds tl := by
          simp [officialIds, hoff, hmo]
        rw [ih, ho]
        cases found with
        | true => simp
        | false =>
          simp only [Bool.not_false, Bool.true_and, Bool.false_eq_true, if_false]
          rw [hq, maxFrom_cons]
          by_cases he : officialIds tl = []
          · rw [if_pos he, if_pos he]
            congr 1
            simp only [decide_eq_true_eq]
            exact ifGt_eq_max best sid
          · rw [if_neg he, if_neg he]

theorem bestsessionidRun_val (ks : KS) :
    (bestsessionidRun ks).2 =
      if officialIds ks = [] then maxFrom 0 (qualifyingIds ks)
      else maxNE (officialIds ks) := by
  have h := bsidGo_val ks 0 false
  simpa [bestsessionidRun] using h

theorem bestsessionidRun_fst (ks : KS) : (bestsessionidRun ks).1 = ks.map bsidRowP := by
  simp [bestsessionidRun, bsidGo_fst]

theorem bsidRowP_idem (e : Int × Session) : bsidRowP (bsidRowP e) = bsidRowP e := by
  simp [bsidRowP, bsidRow_idem]

theorem officialIds_map (ks : KS) : officialIds (ks.map bsidRowP) = officialIds ks := by
  induction ks with
  | nil => rfl
  | cons hd tl ih =>
    obtain ⟨i, sess⟩ := hd
    simp only [List.map_cons, officialIds, List.filter_cons, bsidRowP, bsidRow_offline,
      bsidRow_official] at *
    split <;> simp_all

theorem qualifyingIds_map (ks : KS) : qualifyingIds (ks.map bsidRowP) = qualifyingIds ks := by
  induction ks with
  | nil => rfl
  | cons hd tl ih =>
    obtain ⟨i, sess⟩ := hd
    simp only [List.map_cons, qualifyingIds, List.filter_cons, bsidRowP, bsidRow_offline] at *
    split <;> simp_all

theorem bestsessionidRun_idem (ks : KS) :
    bestsessionidRun ((bestsessionidRun ks).1) = bestsessionidRun ks := by
  have hfst : (bestsessionidRun ((bestsessionidRun ks).1)).1 = (bestsessionidRun ks).1 := by
    rw [bestsessionidRun_fst, bestsessionidRun_fst ks, List.map_map]
    exact List.map_congr_left (fun e _ => bsidRowP_idem e)
  have hsnd : (bestsessionidRun ((bestsessionidRun ks).1)).2 = (bestsessionidRun ks).2 := by
    rw [bestsessionidRun_val, bestsessionidRun_val ks, bestsessionidRun_fst,
      officialIds_map, qualifyingIds_map]
  exact Prod.ext hfst hsnd

theorem officialIds_sub_qualifying (ks : KS) (h : qualifyingIds ks = []) :
    officialIds ks = [] := by
  induction ks with
  | nil => rfl
  | cons hd tl ih =>
    by_cases hoff : rowOffline hd.2
    · have h2 : qualifyingIds tl = [] := by
        simpa [qualifyingIds, List.filter_cons, hoff] using h
      simpa [officialIds, List.filter_cons, hoff] using ih h2
    · exfalso
      have : qualifyingIds (hd :: tl) = hd.1 :: qualifyingIds tl := by
        simp [qualifyingIds, List.filter_cons, hoff]
      rw [h] at this
      exact List.cons_ne_nil _ _ this.symm

theorem officialIds_filter_invariant (ks : KS) :
    officialIds (ks.filter (fun e => !rowOffline e.2)) = officialIds ks := by
  unfold officialIds
  rw [List.filter_filter]
  congr 1
  apply List.filter_congr
  intro a _
  cases h : rowOffline a.2 <;> simp [h]

theorem qualifyingIds_filter_invariant (ks : KS) :
    qualifyingIds (ks.filter (fun e => !rowOffline e.2)) = qualifyingIds ks := by
  unfold qualifyingIds
  rw [List.filter_filter]
  congr 1
  apply List.filter_congr
  intro a _
  cases h : rowOffline a.2 <;> simp [h]

/-- Sessions marked official software in the 5 versus 20 example of the
spec, used to instantiate the selector claim. -/
def exKS520 : KS :=
  [(5, [("sid", .int 5), ("uid", .int 1), ("vs", .int 90), ("rc", .int 0),
        ("model_sw", .bool true)]),
   (20, [("sid", .int 20), ("uid", .int 1), ("vs", .int 90), ("rc", .int 0)])]

/-- C3: bestsessionid skips every offline session (removing the offline
rows does not change the result); official-software sessions outrank all
others (whenever a consulted official session exists the result is one
of the official ids and bounds them all); among the consulted group the
highest id wins (the result is a member and an upper bound of the
consulted group); and the result is 0 when no session qualifies.  The
session ids are required to be non-negative, as every id produced by the
protocol is. -/
theorem C3_best_session_selector (ks : KS) (h : ∀ e ∈ ks, 0 ≤ e.1) :
    (officialIds ks ≠ [] →
      (bestsessionidRun ks).2 ∈ officialIds ks ∧
        ∀ i ∈ officialIds ks, i ≤ (bestsessionidRun ks).2) ∧
    (officialIds ks = [] → qualifyingIds ks ≠ [] →
      (bestsessionidRun ks).2 ∈ qualifyingIds ks ∧
        ∀ i ∈ qualifyingIds ks, i ≤ (bestsessionidRun ks).2) ∧
    (qualifyingIds ks = [] → (bestsessionidRun ks).2 = 0) ∧
    (bestsessionidRun (ks.filter (fun e => !rowOffline e.2))).2 = (bestsessionidRun ks).2 := by
  have hval := bestsessionidRun_val ks
  refine ⟨?_, ?_, ?_, ?_⟩
  · intro hne
    rw [hval, if_neg hne]
    cases ho : officialIds ks with
    | nil => exact absurd ho hne
    | cons x xs =>
      simp only [maxNE]
      constructor
      · rcases maxFrom_eq_or_mem xs x with hm | hm
        · rw [hm]; exact List.mem_cons_self _ _
        · exact List.mem_cons_of_mem _ hm
      · intro i hi
        rcases List.mem_cons.mp hi with rfl | hi
        · exact le_maxFrom _ _
        · exact mem_le_maxFrom _ _ _ hi
  · intro ho hq
    rw [hval, if_pos ho]
    have hqpos : ∀ i ∈ qualifyingIds ks, 0 ≤ i := by
      intro i hi
      simp only [qualifyingIds, List.mem_map] at hi
      obtain ⟨e, he, rfl⟩ := hi
      exact h e (List.mem_filter.mp he).1
    constructor
    · rcases maxFrom_eq_or_mem (qualifyingIds ks) 0 with hm | hm
      · cases hql : qualifyingIds ks with
        | nil => exact absurd hql hq
        | cons y ys =>
          rw [hql] at hm
          have hy : y ≤ maxFrom 0 (y :: ys) :=
            mem_le_maxFrom _ _ _ (List.mem_cons_self y ys)
          have hy0 : 0 ≤ y := hqpos y (by rw [hql]; exact List.mem_cons_self y ys)
          have heq : maxFrom 0 (y :: ys) = y := by omega
          rw [heq]
          exact List.mem_cons_self y ys
      · exact hm
    · intro i hi
      exact mem_le_maxFrom _ _ _ hi
  · intro hq
    rw [hval, if_pos (officialIds_sub_qualifying ks hq), hq]
    rfl
  · rw [bestsessionidRun_val, officialIds_filter_invariant, qualifyingIds_filter_invariant, hval]

/-- Witness for C3: the spec example of an official session with id 5
and a non-flagged session with id 20, both online, selects id 5. -/
theorem C3_witness :
    (∀ e ∈ exKS520, 0 ≤ e.1) ∧ (bestsessionidRun exKS520).2 = 5 := by
  refine ⟨by decide, ?_⟩
  have h := (C3_best_session_selector exKS520 (by decide)).1 (by decide)
  have hm := h.1
  have : officialIds exKS520 = [5] := by decide
  rw [this] at hm
  simpa using hm

theorem alookup_map_bsidRowP (ks : KS) (i : Int) :
    alookup (ks.map bsidRowP) i = (alookup ks i).map bsidRow := by
  induction ks with
  | nil => rfl
  | cons hd tl ih =>
    obtain ⟨j, sess⟩ := hd
    by_cases h : i = j <;> simp [bsidRowP, h, ih]

theorem alookup_asetdefault_preserve {α β : Type} [DecidableEq α] (l : List (α × β))
    (key : α) (v : β) (k : α) (w : β) (h : alookup l k = some w) :
    alookup (asetdefault l key v).1 k = some w := by
  rw [alookup_asetdefault_fst, h]

theorem bsidRow_preserve (sess : Session) (k : String) (v : Value)
    (h : alookup sess k = some v) : alookup (bsidRow sess) k = some v := by
  simp only [bsidRow]
  split
  · exact alookup_asetdefault_preserve _ _ _ _ _ h
  · exact alookup_asetdefault_preserve _ _ _ _ _ (alookup_asetdefault_preserve _ _ _ _ _ h)

theorem bsidRow_other (sess : Session) (k : String) (h1 : k ≠ "vs") (h2 : k ≠ "model_sw") :
    alookup (bsidRow sess) k = alookup sess k := by
  simp only [bsidRow]
  split
  · exact alookup_asetdefault_other _ _ _ _ h1
  · rw [alookup_asetdefault_other _ _ _ _ h2, alookup_asetdefault_other _ _ _ _ h1]

/-- C2 counterexample input: the empty sessions map of a fresh entity. -/
def exEmptyKS : KS := []

/-- C2 counterexample input: a sessions map holding one row that lacks
a video state key. -/
def exNoVsKS : KS := [(7, [])]

/-- C2 counterexample: evaluating bestsession on an empty sessions map
inserts the freshly defaulted offline row into the map (the setdefault
on model.py line 65), and evaluating bestsessionid on a row without a
video state inserts the defaulted vs key into that row (the setdefault
on model.py line 45) — the evaluations do modify the sessions. -/
theorem C2_counterexample :
    (bestsessionRun 1 exEmptyKS).1 = [(0, defaultSession 1)] ∧
    (bestsessionRun 1 exEmptyKS).1 ≠ exEmptyKS ∧
    (bestsessionidRun exNoVsKS).1 = [(7, [("vs", Value.int OFFLINE)])] ∧
    (bestsessionidRun exNoVsKS).1 ≠ exNoVsKS := by decide

/-- C2 amended: evaluating bestsessionid never adds or removes a
session and never changes the value of a key already present — each row
is only extended in place by defaulted vs and model_sw keys — and
bestsession returns the stored row when the selected id exists, but
inserts the freshly defaulted offline row into the sessions map (via
dict.setdefault) when it does not. -/
theorem C2_amended (ks : KS) (uid : Int) :
    ((bestsessionidRun ks).1.map Prod.fst = ks.map Prod.fst) ∧
    (∀ i sess, alookup ks i = some sess →
      alookup (bestsessionidRun ks).1 i = some (bsidRow sess) ∧
      (∀ k v, alookup sess k = some v → alookup (bsidRow sess) k = some v) ∧
      (∀ k, k ≠ "vs" → k ≠ "model_sw" → alookup (bsidRow sess) k = alookup sess k)) ∧
    (alookup (bestsessionidRun ks).1 (bestsessionidRun ks).2 = none →
      (bestsessionRun uid ks).1 =
        (bestsessionidRun ks).1 ++ [((bestsessionidRun ks).2, defaultSession uid)] ∧
      (bestsessionRun uid ks).2.2 = defaultSession uid) ∧
    (∀ sess, alookup (bestsessionidRun ks).1 (bestsessionidRun ks).2 = some sess →
      (bestsessionRun uid ks).1 = (bestsessionidRun ks).1 ∧
      (bestsessionRun uid ks).2.2 = sess) := by
  refine ⟨?_, ?_, ?_, ?_⟩
  · rw [bestsessionidRun_fst, List.map_map]
    exact List.map_congr_left (fun e _ => rfl)
  · intro i sess hi
    refine ⟨?_, bsidRow_preserve sess, fun k h1 h2 => bsidRow_other sess k h1 h2⟩
    rw [bestsessionidRun_fst, alookup_map_bsidRowP, hi]
    rfl
  · intro hnone
    unfold bestsessionRun
    simp only [asetdefault]
    rw [hnone]
    exact ⟨rfl, rfl⟩
  · intro sess hsome
    unfold bestsessionRun
    simp only [asetdefault]
    rw [hsome]
    exact ⟨rfl, rfl⟩

/-- Witness for C2: the amended statement instantiated at the two
counterexample inputs — the no-vs row is extended with the defaulted
video state, and the empty map receives the defaulted row. -/
theorem C2_witness :
    alookup (bestsessionidRun exNoVsKS).1 7 = some (bsidRow []) ∧
    (bestsessionRun 1 exEmptyKS).2.2 = defaultSession 1 := by
  constructor
  · exact ((C2_amended exNoVsKS 1).2.1 7 [] (by decide)).1
  · exact ((C2_amended exEmptyKS 1).2.2.1 (by decide)).2

/-- The visibility condition Model.merge actually evaluates, stated
with a single selector run: the recomputed post-update best session id
equals the updated session's sid, or that post-update best id is 0 and
the updated session's sid is non-zero (model.py lines 124 to 125). -/
def postVisible (s : ModelState) (p : Payload) : Bool :=
  let prep := mergeSessions s p
  let r := bestsessionidRun prep.ks
  let sid := sidVal (sessGet r.1 prep.csid)
  pyEq (.int r.2) sid || (r.2 == 0 && !(pyEq sid (.int 0)))

/-- The visibility condition as the claim words it: the updated session
is the best session after the update, or the baseline best session id
(captured before the update) is 0 and the updated session's sid is
non-zero. -/
def specVisibleC1 (s : ModelState) (p : Payload) : Bool :=
  let prep := mergeSessions s p
  let r := bestsessionidRun prep.ks
  let sid := sidVal (sessGet r.1 prep.csid)
  pyEq (.int r.2) sid || (prep.prevKey == 0 && !(pyEq sid (.int 0)))

/-- C1 counterexample input: an entity whose only session, id 3, is
online and is the baseline best session. -/
def exC1State : ModelState :=
  { uid := 1,
    knownsessions :=
      [(3, [("sid", .int 3), ("uid", .int 1), ("vs", .int 90), ("rc", .int 0)])] }

/-- C1 counterexample payload: session 3 goes offline. -/
def exC1Payload : Payload := [("sid", .scalar (.int 3)), ("vs", .scalar (.int OFFLINE))]

/-- C1 counterexample: taking the baseline best session id 3 offline is
a visible merge in the code (the watcher engine runs and four events
are emitted, the vs change and the catch-all, each mirrored), yet the
claim's condition is false there: the updated session is not the best
session after the update and the baseline best id is 3, not 0.  The
second disjunct of model.py line 125 tests the recomputed best id, not
the baseline one. -/
theorem C1_counterexample :
    (merge exC1State exC1Payload).toOption.map MergeOut.ranWhens = some true ∧
    (merge exC1State exC1Payload).toOption.map (fun o => o.events.length) = some 4 ∧
    (mergeSessions exC1State exC1Payload).prevKey = 3 ∧
    specVisibleC1 exC1State exC1Payload = false := by decide

/-- C1 amended: for every non-aggregate entity and payload passing the
producer-level check, the merge is visible (emits the notifications and
runs the watcher engine) iff the post-update best session id equals the
updated session's sid, or the post-update best session id is 0 and the
updated session's sid is non-zero. -/
theorem C1_amended (s : ModelState) (p : Payload)
    (h1 : s.uid ≠ -500) (h2 : lvOK p = true) :
    (merge s p).toOption.map MergeOut.ranWhens = some (postVisible s p) := by
  have hcond : ¬ (s.uid = -500 ∨ lvOK p = false) := by
    rintro (hc | hc)
    · exact h1 hc
    · rw [h2] at hc
      cases hc
  unfold merge
  rw [if_neg hcond]
  show some (mergeBody s p).ranWhens = some (postVisible s p)
  congr 1
  unfold mergeBody postVisible
  simp only
  rw [bestsessionidRun_idem]
  by_cases hA : pyEq (.int (bestsessionidRun (mergeSessions s p).ks).2)
      (sidVal (sessGet (bestsessionidRun (mergeSessions s p).ks).1
        (mergeSessions s p).csid)) = true
  · rw [if_pos hA]
    simp [mergeVisible, hA]
  · rw [if_neg hA]
    simp only [Bool.not_eq_true] at hA
    by_cases hB : ((bestsessionidRun (mergeSessions s p).ks).2 == 0 &&
        !(pyEq (sidVal (sessGet (bestsessionidRun (mergeSessions s p).ks).1
          (mergeSessions s p).csid)) (.int 0))) = true
    · rw [if_pos hB]
      simp [mergeVisible, hA, hB]
    · rw [if_neg hB]
      simp only [Bool.not_eq_true] at hB
      simp [hA, hB]

/-- Witness for C1: the amended visibility equation instantiated at the
counterexample input, whose preconditions hold. -/
theorem C1_witness :
    exC1State.uid ≠ -500 ∧ lvOK exC1Payload = true ∧
    (merge exC1State exC1Payload).toOption.map MergeOut.ranWhens =
      some (postVisible exC1State exC1Payload) :=
  ⟨by decide, by decide, C1_amended exC1State exC1Payload (by decide) (by decide)⟩

/-- The property name of a per-property event, none for the catch-all
and tags events. -/
def Event.propName : Event → Option String
  | .prop n _ _ => some n
  | .any _ => none
  | .tagsEv _ _ => none

/-- C4 counterexample input: a fresh entity. -/
def exC4State : ModelState := { uid := 1 }

/-- C4 counterexample payload: the property vs appears both as a flat
top-level key and inside the nested u group. -/
def exC4Payload : Payload :=
  [("sid", .scalar (.int 1)), ("vs", .scalar (.int 90)), ("u", .group [("vs", .int 91)])]

/-- C4 counterexample: a visible merge of a payload carrying the same
property both flat and inside a nested group emits two vs
property-change notifications to the entity's observers in one merge
call, refuting that a changed property is notified at most once per
merge call. -/
theorem C4_counterexample :
    (merge exC4State exC4Payload).toOption.map (fun o =>
      (o.ranWhens,
       (o.events.filter
          (fun te => te.1 == Target.entity && te.2.propName == some "vs")).length)) =
      some (true, 2) := by decide

theorem mem_propEvents_entity (ts : List CbTuple) (name : String) (b a : Option Value) :
    (Target.entity, Event.prop name b a) ∈ propEvents ts ↔
      ∃ t ∈ ts, t.prop = name ∧ t.before = b ∧ t.after = a ∧
        pyEqO t.before t.after = false := by
  constructor
  · intro hmem
    simp only [propEvents, List.mem_flatMap, List.mem_filter] at hmem
    obtain ⟨t, ⟨ht, hd⟩, hin⟩ := hmem
    rcases List.mem_cons.mp hin with heq | hin2
    · injection heq with he1 he2
      injection he2 with hn hb ha
      exact ⟨t, ht, hn.symm, hb.symm, ha.symm, by simpa using hd⟩
    · rcases List.mem_cons.mp hin2 with heq | hin3
      · injection heq with he1 _
        cases he1
      · cases hin3
  · rintro ⟨t, ht, rfl, rfl, rfl, h4⟩
    simp only [propEvents, List.mem_flatMap, List.mem_filter]
    exact ⟨t, ⟨ht, by simp [h4]⟩, List.mem_cons_self _ _⟩

theorem propEvents_count_any (ts : List CbTuple) (tg : Target) (p : Payload) :
    (propEvents ts).count (tg, Event.any p) = 0 := by
  rw [List.count_eq_zero]
  intro hmem
  simp only [propEvents, List.mem_flatMap, List.mem_filter] at hmem
  obtain ⟨t, -, hin⟩ := hmem
  rcases List.mem_cons.mp hin with heq | hin2
  · injection heq with _ he
    cases he
  · rcases List.mem_cons.mp hin2 with heq | hin3
    · injection heq with _ he
      cases he
    · cases hin3

theorem diffEvents_count_any (ts : List CbTuple) (p : Payload) :
    (diffEvents ts p).count (Target.entity, Event.any p) = 1 ∧
    (diffEvents ts p).count (Target.aggregate, Event.any p) = 1 := by
  unfold diffEvents
  rw [List.count_append, List.count_append, propEvents_count_any, propEvents_count_any]
  constructor <;> simp [List.count_cons]

theorem mergeBody_events (s : ModelState) (p : Payload) :
    (mergeBody s p).events =
      if (mergeBody s p).ranWhens then diffEvents (mergeSessions s p).tuples p else [] := by
  unfold mergeBody
  simp only
  split
  · simp [mergeVisible]
  · split
    · simp [mergeVisible]
    · simp

/-- C4 amended: a visible merge emits exactly one pair of notifications
(entity plus Aggregate mirror) per recorded tuple whose before and
after differ — so a property recorded more than once, as when it
appears both flat and inside a nested group, is notified once per
record, not once per name — and the catch-all fires exactly once per
scope regardless of diffs; an immediately repeated identical merge of a
payload without repeated property names, such as the spec's example,
emits zero property-change events while the catch-all fires again (see
the witness). -/
theorem C4_amended (s : ModelState) (p : Payload) (o : MergeOut)
    (h : merge s p = .ok o) (hv : o.ranWhens = true) :
    o.events = diffEvents (mergeSessions s p).tuples p ∧
    o.events.count (Target.entity, Event.any p) = 1 ∧
    o.events.count (Target.aggregate, Event.any p) = 1 ∧
    (∀ name b a, (Target.entity, Event.prop name b a) ∈ o.events ↔
      ∃ t ∈ (mergeSessions s p).tuples, t.prop = name ∧ t.before = b ∧ t.after = a ∧
        pyEqO t.before t.after = false) := by
  have ho : o = mergeBody s p := by
    unfold merge at h
    split at h
    · cases h
    · injection h with h2
      exact h2.symm
  subst ho
  have hev : (mergeBody s p).events = diffEvents (mergeSessions s p).tuples p := by
    rw [mergeBody_events, if_pos hv]
  refine ⟨hev, ?_, ?_, ?_⟩
  · rw [hev]
    exact (diffEvents_count_any _ _).1
  · rw [hev]
    exact (diffEvents_count_any _ _).2
  · intro name b a
    rw [hev]
    unfold diffEvents
    rw [List.mem_append]
    constructor
    · rintro (hin | hin)
      · exact (mem_propEvents_entity _ _ _ _).mp hin
      · exfalso
        rcases List.mem_cons.mp hin with heq | hin2
        · injection heq with _ he
          cases he
        · rcases List.mem_cons.mp hin2 with heq | hin3
          · injection heq with he _
            cases he
          · cases hin3
    · intro hex
      exact Or.inl ((mem_propEvents_entity _ _ _ _).mpr hex)

/-- The spec's Alice example: a fresh entity and the first payload. -/
def exAliceState : ModelState := { uid := 7 }

/-- The spec's Alice example payload. -/
def exAlicePayload : Payload :=
  [("sid", .scalar (.int 1)), ("vs", .scalar (.int 90)), ("nm", .scalar (.str "Alice"))]

/-- The entity state after the first Alice merge. -/
def exAliceState1 : ModelState := mergeFinal exAliceState exAlicePayload

/-- Witness for C4: the amended statement instantiated at the second,
identical Alice merge — every recorded tuple diffs equal, so the merge
emits no property-change event, yet it is visible and the catch-all
fires once per scope. -/
theorem C4_witness :
    merge exAliceState1 exAlicePayload = .ok (mergeBody exAliceState1 exAlicePayload) ∧
    (mergeBody exAliceState1 exAlicePayload).ranWhens = true ∧
    (mergeBody exAliceState1 exAlicePayload).events =
      diffEvents (mergeSessions exAliceState1 exAlicePayload).tuples exAlicePayload ∧
    propEvents (mergeSessions exAliceState1 exAlicePayload).tuples = [] ∧
    (mergeBody exAliceState1 exAlicePayload).events =
      [(Target.entity, Event.any exAlicePayload),
       (Target.aggregate, Event.any exAlicePayload)] := by
  refine ⟨rfl, by decide, ?_, by decide, by decide⟩
  exact (C4_amended exAliceState1 exAlicePayload _ rfl (by decide)).1

/-- C5: merge_tags sets the tag set to its union with the new tags (so
the tag set never shrinks), leaves uid, display name and sessions
untouched, emits exactly one tag-change notification carrying the
previous and current tag sets to the entity and exactly one mirror to
the Aggregate Entity — unconditionally, in particular for the empty
update, whose union introduces no new tag — and runs the watcher
engine. -/
theorem C5_merge_tags (s : ModelState) (l : List String) :
    (mergeTags s l).state.tags = s.tags ∪ l.toFinset ∧
    s.tags ⊆ (mergeTags s l).state.tags ∧
    (mergeTags s l).events =
      [(Target.entity, Event.tagsEv s.tags (s.tags ∪ l.toFinset)),
       (Target.aggregate, Event.tagsEv s.tags (s.tags ∪ l.toFinset))] ∧
    (mergeTags s l).state.uid = s.uid ∧
    (mergeTags s l).state.nm = s.nm ∧
    (mergeTags s l).state.knownsessions = s.knownsessions ∧
    (mergeTags s l).ranWhens = true ∧
    (mergeTags s []).state.tags = s.tags ∧
    (mergeTags s []).events =
      [(Target.entity, Event.tagsEv s.tags s.tags),
       (Target.aggregate, Event.tagsEv s.tags s.tags)] := by
  refine ⟨rfl, Finset.subset_union_left, rfl, rfl, rfl, rfl, rfl, by simp [mergeTags], ?_⟩
  simp [mergeTags]

/-- C6: merge rejects, as an assertion failure raised before any state
is touched, every call on the Aggregate Entity and every payload whose
declared producer level differs from FCLEVEL.MODEL; the state the
caller observes afterwards is exactly the state before the call. -/
theorem C6_precondition_rejection (s : ModelState) (p : Payload)
    (h : s.uid = -500 ∨ lvOK p = false) :
    merge s p = .error () ∧ mergeFinal s p = s := by
  constructor
  · unfold merge
    rw [if_pos h]
  · unfold mergeFinal merge
    rw [if_pos h]

/-- C6 counterexample-style input: a payload declaring a producer level
of 5, not the expected model level. -/
def exBadLvPayload : Payload := [("lv", .scalar (.int 5)), ("sid", .scalar (.int 3))]

/-- Witness for C6: the rejection applied to a mismatched producer
level on an ordinary entity, and to the Aggregate Entity itself. -/
theorem C6_witness :
    (merge exC1State exBadLvPayload = .error () ∧
      mergeFinal exC1State exBadLvPayload = exC1State) ∧
    (merge { uid := -500 } exAlicePayload = .error () ∧
      mergeFinal { uid := -500 } exAlicePayload = { uid := -500 }) :=
  ⟨C6_precondition_rejection exC1State exBadLvPayload (Or.inr (by decide)),
   C6_precondition_rejection { uid := -500 } exAlicePayload (Or.inl rfl)⟩

theorem mem_purgeold (ks : KS) :
    ∀ e ∈ purgeold ks, ∃ v, alookup e.2 "vs" = some v ∧
      pyEq v (.int OFFLINE) = false := by
  intro e he
  simp only [purgeold, List.mem_filter] at he
  obtain ⟨-, hp⟩ := he
  cases hv : alookup e.2 "vs" with
  | none => rw [hv] at hp; cases hp
  | some v =>
    rw [hv] at hp
    simp only [Bool.not_eq_true'] at hp
    exact ⟨v, rfl, hp⟩

theorem mergeBody_sessions_purged (s : ModelState) (p : Payload) :
    ∃ ks, (mergeBody s p).state.knownsessions = purgeold ks := by
  unfold mergeBody
  simp only
  split
  · exact ⟨_, rfl⟩
  · split
    · exact ⟨_, rfl⟩
    · exact ⟨_, rfl⟩

/-- C8: every merge call that passes its preconditions — visible or
not, including the synthetic merge reset performs — ends by purging the
sessions map, so afterwards every remaining session carries a video
state key whose value is not offline (missing states were treated as
offline and removed). -/
theorem C8_purge (s : ModelState) (p : Payload) (o : MergeOut)
    (h : merge s p = .ok o) :
    ∀ e ∈ o.state.knownsessions, ∃ v, alookup e.2 "vs" = some v ∧
      pyEq v (.int OFFLINE) = false := by
  have ho : o = mergeBody s p := by
    unfold merge at h
    split at h
    · cases h
    · injection h with h2
      exact h2.symm
  subst ho
  obtain ⟨ks, hks⟩ := mergeBody_sessions_purged s p
  rw [hks]
  exact mem_purgeold ks

/-- Witness for C8: after the first Alice merge every surviving session
row carries a non-offline video state; the defaulted offline row 0 was
purged. -/
theorem C8_witness :
    merge exAliceState exAlicePayload = .ok (mergeBody exAliceState exAlicePayload) ∧
    (mergeBody exAliceState exAlicePayload).state.knownsessions.all
      (fun e => ((alookup e.2 "vs").map
        (fun v => !(pyEq v (.int OFFLINE)))).getD false) = true := by
  refine ⟨rfl, ?_⟩
  have h := C8_purge exAliceState exAlicePayload _ rfl
  rw [List.all_eq_true]
  intro e he
  obtain ⟨v, hv, hne⟩ := h e he
  rw [hv]
  simp [hne]

theorem runWatcher_counts (evals : List (Int × Bool)) : ∀ (w : Finset Int) (u : Int),
    ((runWatcher w evals).2.count (WCall.ontrue u) =
      upEdges (decide (u ∈ w)) ((evals.filter (fun e => e.1 == u)).map Prod.snd)) ∧
    ((runWatcher w evals).2.count (WCall.onfalseaftertrue u) =
      downEdges (decide (u ∈ w)) ((evals.filter (fun e => e.1 == u)).map Prod.snd)) := by
  induction evals with
  | nil => intro w u; simp [runWatcher, upEdges, downEdges]
  | cons hd tl ih =>
    obtain ⟨v, b⟩ := hd
    intro w u
    by_cases hvu : v = u
    · subst hvu
      have hfil : ((v, b) :: tl).filter (fun e => e.1 == v) =
          (v, b) :: tl.filter (fun e => e.1 == v) := by
        simp [List.filter_cons]
      by_cases hw : v ∈ w
      · cases b with
        | true =>
          have hp : processWatcher w v true = (w, []) := by
            simp [processWatcher, hw]
          simp only [runWatcher, hp, List.nil_append, hfil, List.map_cons, upEdges, downEdges]
          obtain ⟨ih1, ih2⟩ := ih w v
          simp [hw, ih1, ih2]
        | false =>
          have hp : processWatcher w v false = (w.erase v, [WCall.onfalseaftertrue v]) := by
            simp [processWatcher, hw]
          simp only [runWatcher, hp, hfil, List.map_cons, upEdges, downEdges,
            List.singleton_append, List.count_cons]
          obtain ⟨ih1, ih2⟩ := ih (w.erase v) v
          simp [hw, Finset.not_mem_erase, ih1, ih2]
          omega
      · cases b with
        | true =>
          have hp : processWatcher w v true = (insert v w, [WCall.ontrue v]) := by
            simp [processWatcher, hw]
          simp only [runWatcher, hp, hfil, List.map_cons, upEdges, downEdges,
            List.singleton_append, List.count_cons]
          obtain ⟨ih1, ih2⟩ := ih (insert v w) v
          simp [hw, Finset.mem_insert_self, ih1, ih2]
          omega
        | false =>
          have hp : processWatcher w v false = (w, []) := by
            simp [processWatcher, hw]
          simp only [runWatcher, hp, List.nil_append, hfil, List.map_cons, upEdges, downEdges]
          obtain ⟨ih1, ih2⟩ := ih w v
          simp [hw, ih1, ih2]
    · have hfil : ((v, b) :: tl).filter (fun e => e.1 == u) =
          tl.filter (fun e => e.1 == u) := by
        simp [List.filter_cons, hvu]
      have hne : u ≠ v := fun hc => hvu hc.symm
      by_cases hw : v ∈ w
      · cases b with
        | true =>
          have hp : processWatcher w v true = (w, []) := by
            simp [processWatcher, hw]
          simp only [runWatcher, hp, List.nil_append, hfil]
          exact ih w u
        | false =>
          have hp : processWatcher w v false = (w.erase v, [WCall.onfalseaftertrue v]) := by
            simp [processWatcher, hw]
          have hm : decide (u ∈ w.erase v) = decide (u ∈ w) := by
            simp [Finset.mem_erase, hne]
          simp only [runWatcher, hp, hfil, List.singleton_append, List.count_cons]
          obtain ⟨ih1, ih2⟩ := ih (w.erase v) u
          rw [hm] at ih1 ih2
          simp [ih1, ih2, hvu]
      · cases b with
        | true =>
          have hp : processWatcher w v true = (insert v w, [WCall.ontrue v]) := by
            simp [processWatcher, hw]
          have hm : decide (u ∈ insert v w) = decide (u ∈ w) := by
            simp [Finset.mem_insert, hne]
          simp only [runWatcher, hp, hfil, List.singleton_append, List.count_cons]
          obtain ⟨ih1, ih2⟩ := ih (insert v w) u
          rw [hm] at ih1 ih2
          simp [ih1, ih2, hvu]
        | false =>
          have hp : processWatcher w v false = (w, []) := by
            simp [processWatcher, hw]
          simp only [runWatcher, hp, List.nil_append, hfil]
          exact ih w u

/-- C7: for a watcher record evaluated across any sequence of merge and
tag-merge watcher runs (each evaluation tagged with the uid of the
evaluating entity and the predicate's truth value there), the ontrue
callback is invoked exactly once per false-to-true transition of the
predicate as seen for that uid and onfalseaftertrue exactly once per
subsequent true-to-false transition, never on a steady state; a
predicate flipping false, true, false from a fresh registration (the
registration call installs an empty matchedset) invokes ontrue once,
then onfalseaftertrue once, and no more. -/
theorem C7_watcher_transitions (w : Finset Int) (evals : List (Int × Bool)) (u : Int) :
    ((runWatcher w evals).2.count (WCall.ontrue u) =
      upEdges (decide (u ∈ w)) ((evals.filter (fun e => e.1 == u)).map Prod.snd)) ∧
    ((runWatcher w evals).2.count (WCall.onfalseaftertrue u) =
      downEdges (decide (u ∈ w)) ((evals.filter (fun e => e.1 == u)).map Prod.snd)) ∧
    (runWatcher ∅ [(u, false), (u, true), (u, false)]).2 =
      [WCall.ontrue u, WCall.onfalseaftertrue u] := by
  refine ⟨(runWatcher_counts evals w u).1, (runWatcher_counts evals w u).2, ?_⟩
  simp [runWatcher, processWatcher]

/-- C9: getOrCreate called twice with the same id returns the same
instance both times, the second call leaves the registry unchanged, and
a subsequent create-free get returns that same instance without
touching the registry. -/
theorem C9_registry_identity (r : Registry) (n : Int) :
    ∃ r1 t, get_model r (.i n) true = .ok (r1, some t) ∧
      get_model r1 (.i n) true = .ok (r1, some t) ∧
      get_model r1 (.i n) false = .ok (r1, some t) := by
  cases h : alookup r.known n with
  | some t =>
    exact ⟨r, t, by simp [get_model, h], by simp [get_model, h], by simp [get_model, h]⟩
  | none =>
    refine ⟨{ known := r.known ++ [(n, r.next)], next := r.next + 1 }, r.next, ?_, ?_, ?_⟩
    · simp [get_model, h]
    · have h2 : alookup (r.known ++ [(n, r.next)]) n = some r.next := by
        rw [alookup_append, h]
        simp
      simp [get_model, h2]
    · have h2 : alookup (r.known ++ [(n, r.next)]) n = some r.next := by
        rw [alookup_append, h]
        simp
      simp [get_model, h2]

theorem digitVal_digitChar (d : Nat) (h : d < 10) : digitVal (digitChar d) = some d := by
  interval_cases d <;> decide

theorem digitChar_ne_dash (d : Nat) (h : d < 10) : digitChar d ≠ Char.ofNat 45 := by
  interval_cases d <;> decide

theorem parseNatAux_append (xs ys : List Char) : ∀ acc : Nat,
    parseNatAux acc (xs ++ ys) =
      match parseNatAux acc xs with
      | some m => parseNatAux m ys
      | none => none := by
  induction xs with
  | nil => intro acc; rfl
  | cons c cs ih =>
    intro acc
    simp only [List.cons_append, parseNatAux]
    cases hdv : digitVal c with
    | some d => exact ih _
    | none => rfl

theorem parseNatAux_natDigits (n : Nat) : ∀ acc : Nat,
    parseNatAux acc (natDigits n) = some (acc * 10 ^ (natDigits n).length + n) := by
  induction n using Nat.strong_induction_on with
  | _ n ih =>
    intro acc
    rw [natDigits]
    split
    · rename_i h
      simp only [parseNatAux, digitVal_digitChar n h, List.length_singleton, pow_one]
    · rename_i h
      rw [parseNatAux_append]
      rw [ih (n / 10) (Nat.div_lt_self (by omega) (by omega)) acc]
      simp only [parseNatAux, digitVal_digitChar (n % 10) (Nat.mod_lt n (by omega))]
      congr 1
      rw [List.length_append, List.length_singleton, pow_succ]
      have hdm : n / 10 * 10 + n % 10 = n := by omega
      calc (acc * 10 ^ (natDigits (n / 10)).length + n / 10) * 10 + n % 10
          = acc * (10 ^ (natDigits (n / 10)).length * 10) + (n / 10 * 10 + n % 10) := by ring
        _ = acc * (10 ^ (natDigits (n / 10)).length * 10) + n := by rw [hdm]

theorem natDigits_all_digit (n : Nat) : ∀ c ∈ natDigits n, ∃ d, d < 10 ∧ c = digitChar d := by
  induction n using Nat.strong_induction_on with
  | _ n ih =>
    rw [natDigits]
    split
    · rename_i h
      intro c hc
      simp only [List.mem_singleton] at hc
      exact ⟨n, h, hc⟩
    · rename_i h
      intro c hc
      rw [List.mem_append] at hc
      rcases hc with hc | hc
      · exact ih (n / 10) (Nat.div_lt_self (by omega) (by omega)) c hc
      · simp only [List.mem_singleton] at hc
        exact ⟨n % 10, Nat.mod_lt n (by omega), hc⟩

theorem natDigits_ne_nil (n : Nat) : natDigits n ≠ [] := by
  rw [natDigits]
  split
  · simp
  · simp

theorem pyIntOfStr_pyStr (n : Int) : pyIntOfStr (pyStr n) = some n := by
  cases n with
  | ofNat m =>
    show pyIntOfStr ⟨natDigits m⟩ = some (Int.ofNat m)
    unfold pyIntOfStr
    cases hd : natDigits m with
    | nil => exact absurd hd (natDigits_ne_nil m)
    | cons c cs =>
      have hne : c ≠ '-' := by
        obtain ⟨d, hd10, hcd⟩ := natDigits_all_digit m c (by rw [hd]; exact List.mem_cons_self c cs)
        rw [hcd]
        exact digitChar_ne_dash d hd10
      simp only [hd]
      rw [if_neg hne, ← hd, parseNatAux_natDigits]
      simp
  | negSucc m =>
    show pyIntOfStr ⟨'-' :: natDigits (m + 1)⟩ = some (Int.negSucc m)
    unfold pyIntOfStr
    simp only [if_pos rfl]
    cases hd : natDigits (m + 1) with
    | nil => exact absurd hd (natDigits_ne_nil _)
    | cons c cs =>
      simp only [hd]
      rw [← hd, parseNatAux_natDigits]
      simp [Int.negSucc_eq]

/-- C10: get_model converts a decimal string uid with int() before the
registry lookup, so on the decimal string Python str() produces for any
integer n the call behaves exactly as the int call — the same instance
is returned, creating exactly when the int call would create — and the
registry is keyed by the converted integer. -/
theorem C10_string_uid (r : Registry) (n : Int) (c : Bool) :
    get_model r (.s (pyStr n)) c = get_model r (.i n) c := by
  simp [get_model, pyIntOfStr_pyStr]

end Mfcauto
